import Mathlib

/-!
Verification of the Blackjack round engine (`src/main.cpp`).

The C++ program is shallowly embedded: each C++ function becomes a Lean
definition with the same name, global mutable state (`deck`, `disPile`)
becomes an explicit `Supply` value threaded through the operations, the
Mersenne-Twister outputs consumed by the shuffle become an explicit list of
numbers, `std::cin` choices become an explicit script of actions, and
`throw std::runtime_error` becomes `Except.error`.
-/

namespace Blackjack

/-- Card as in `struct Card`: a rank string, a suit string, and the rank's
primary numeric value (Ace carries 11). -/
structure Card where
  rank : String
  suit : String
  value : Nat
deriving DecidableEq, Repr

/-- Hand as in `struct Hand`: an ordered list of cards, a bet, a flag marking
a hand produced by a split, and a flag marking a doubled-down hand. -/
structure Hand where
  cards : List Card
  bet : Nat := 0
  isplit : Bool := false
  ddown : Bool := false
deriving DecidableEq, Repr

/-- Player as in `struct Player`: id, name, chip balance and the list of
concurrently live hands. -/
structure Player where
  id : Nat
  name : String
  chips : Nat := 1000
  hands : List Hand := []
deriving DecidableEq, Repr

/-- The ace-adjustment loop of `calcScr`: while the score exceeds 21 and
aces remain unadjusted, subtract 10 and consume one ace. -/
def soften : Nat → Nat → Nat
  | score, 0 => score
  | score, aces + 1 => if score > 21 then soften (score - 10) aces else score

/-- Embedding of `calcScr`: empty hand scores 0; otherwise accumulate the sum
of non-ace values and the ace count with a single fold (the
`std::accumulate` call), start from the non-ace sum plus 11 per ace, and
run the adjustment loop. -/
def calcScr (hand : Hand) : Nat :=
  if hand.cards.isEmpty then 0
  else
    let result := hand.cards.foldl
      (fun acc c => if c.rank = "A" then (acc.1, acc.2 + 1) else (acc.1 + c.value, acc.2))
      (0, 0)
    soften (result.1 + result.2 * 11) result.2

/-- Score as the specification words it: sum the numeric values of all
non-ace cards, add 11 per ace card, then soften while the total exceeds 21
and unsoftened aces remain. -/
def scoreSpec (hand : Hand) : Nat :=
  let base := ((hand.cards.filter fun c => c.rank ≠ "A").map Card.value).sum
  let aces := (hand.cards.filter fun c => c.rank = "A").length
  soften (base + 11 * aces) aces

/-- Embedding of `is_nat`: natural iff the score is 21, the hand holds
exactly two cards, and the hand is not split-derived. -/
def is_nat (hand : Hand) : Bool :=
  calcScr hand = 21 && hand.cards.length = 2 && !hand.isplit

/-- Embedding of `discHnd`: every card of the hand is pushed onto the
discard stack in order (so the hand's last card ends on top; the stack is
modelled as a list with its head as the top), then the hand's card list is
cleared and its bet reset to 0. -/
def discHnd (hand : Hand) (dis : List Card) : Hand × List Card :=
  ({ hand with cards := [], bet := 0 }, hand.cards.reverse ++ dis)

/-- Embedding of `setHnd`: returns the player's chip balance after settling
one hand against the dealer's hand, together with the discarded hand and the
grown discard stack. The winnings cast `static_cast<int>(bet * 1.5)` is
exact floor division `bet * 3 / 2` for the nonnegative integer bets the
program uses. -/
def setHnd (chips : Nat) (hand dlHnd : Hand) (dis : List Card) : Nat × Hand × List Card :=
  ((if calcScr hand > 21 then chips
    else if is_nat hand && is_nat dlHnd then chips + hand.bet
    else if is_nat hand then chips + hand.bet + hand.bet * 3 / 2
    else if calcScr dlHnd > 21 then chips + hand.bet * 2
    else if is_nat dlHnd then chips
    else if calcScr hand > calcScr dlHnd then chips + hand.bet * 2
    else if calcScr hand < calcScr dlHnd then chips
    else chips + hand.bet),
   discHnd hand dis)

/-- Settlement credit as the specification words it, first matching rule
wins: bust pays 0, natural push returns the wager, a lone player natural
pays the wager plus floor(1.5 × wager), a dealer bust pays twice the wager,
a lone dealer natural pays 0, a higher player score pays twice the wager, a
lower one pays 0, and equal scores return the wager. -/
def settleRule (hand dlHnd : Hand) : Nat :=
  if calcScr hand > 21 then 0
  else if is_nat hand && is_nat dlHnd then hand.bet
  else if is_nat hand then hand.bet + 3 * hand.bet / 2
  else if calcScr dlHnd > 21 then hand.bet * 2
  else if is_nat dlHnd then 0
  else if calcScr hand > calcScr dlHnd then hand.bet * 2
  else if calcScr hand < calcScr dlHnd then 0
  else hand.bet

/-- The shared deck and discard pile (`std::list<Card> deck` and
`std::stack<Card> disPile`, head of `dis` = top of the stack). -/
structure Supply where
  deck : List Card
  dis : List Card
deriving DecidableEq, Repr

/-- The rank/value table `CRDVALS`, listed in the iteration order of the
`std::map` (lexicographic order of the rank strings). -/
def CRDVALS : List (String × Nat) :=
  [("10", 10), ("2", 2), ("3", 3), ("4", 4), ("5", 5), ("6", 6), ("7", 7),
   ("8", 8), ("9", 9), ("A", 11), ("J", 10), ("K", 10), ("Q", 10)]

/-- The four suits, in the order of the `SUITS` list. -/
def SUITS : List String := ["♠", "♥", "♦", "♣"]

/-- One canonical 52-card set, built rank-major as in `createDk`'s nested
loops. -/
def oneSet : List Card :=
  CRDVALS.flatMap fun rv => SUITS.map fun st => ⟨rv.1, st, rv.2⟩

/-- Embedding of `createDk`: clears both piles and fills the deck with
`num_dk` replicas of the canonical set. -/
def createDk (num_dk : Nat) : Supply :=
  ⟨(List.replicate num_dk oneSet).flatten, []⟩

/-- One iteration of the custom shuffle loop in `shufDk`: pick the card at a
random position (modulo the original size `n`), erase it, and re-insert it
at another random position. -/
def shufStep (n : Nat) (l : List Card) (ab : Nat × Nat) : List Card :=
  match l[ab.1 % n]? with
  | none => l
  | some c => (l.eraseIdx (ab.1 % n)).insertIdx (ab.2 % n) c

/-- Embedding of `shufDk`: no-op on an empty deck, otherwise run the
erase/insert loop once per supplied pair of random draws (the C++ loop runs
it `2n` times with Mersenne-Twister values; the list `rnd` carries those
values explicitly). -/
def shufDk (rnd : List (Nat × Nat)) (deck : List Card) : List Card :=
  if deck.isEmpty then deck
  else rnd.foldl (shufStep deck.length) deck

/-- Embedding of `dealCrd`, restricted to the supply: if the deck is
nonempty pop its front card; otherwise move the whole discard pile back
into the deck, shuffle it, and fail (`throw`) only if it is still empty. -/
def dealCrd (rnd : List (Nat × Nat)) (s : Supply) : Except Unit (Card × Supply) :=
  match s.deck with
  | c :: rest => Except.ok (c, ⟨rest, s.dis⟩)
  | [] =>
    match shufDk rnd s.dis with
    | [] => Except.error ()
    | c :: rest => Except.ok (c, ⟨rest, []⟩)

/-- Global game state for the supply-conservation analysis: the deck, the
discard pile, and the cards held by all live hands. -/
structure GState where
  deck : List Card
  dis : List Card
  hands : List Hand
deriving DecidableEq, Repr

/-- The supply operations of the round engine: a draw into a hand
(`dealCrd`), a whole-hand discard (`discHnd`), and a reshuffle (`shufDk`). -/
inductive GOp where
  | deal (target : Nat) (rnd : List (Nat × Nat))
  | discard (i : Nat)
  | shuffle (rnd : List (Nat × Nat))
deriving DecidableEq, Repr

/-- Apply one supply operation to the game state; `none` when the draw fails
(supply exhausted) or the hand index is out of range. -/
def applyOp (s : GState) (op : GOp) : Option GState :=
  match op with
  | .deal t rnd =>
    if ht : t < s.hands.length then
      match dealCrd rnd ⟨s.deck, s.dis⟩ with
      | Except.error _ => none
      | Except.ok (c, sup) =>
        some ⟨sup.deck, sup.dis,
          s.hands.set t { s.hands[t] with cards := s.hands[t].cards ++ [c] }⟩
    else none
  | .discard i =>
    if hi : i < s.hands.length then
      some ⟨s.deck, (discHnd s.hands[i] s.dis).2, s.hands.set i (discHnd s.hands[i] s.dis).1⟩
    else none
  | .shuffle rnd => some ⟨shufDk rnd s.deck, s.dis, s.hands⟩

/-- Apply a sequence of supply operations, stopping at the first failure. -/
def applyAll (ops : List GOp) (s : GState) : Option GState :=
  match ops with
  | [] => some s
  | op :: rest =>
    match applyOp s op with
    | none => none
    | some s' => applyAll rest s'

/-- Total number of cards across the deck, the discard pile and all live
hands. -/
def totalCards (s : GState) : Nat :=
  s.deck.length + s.dis.length + (s.hands.map fun h => h.cards.length).sum

/-- Number of copies of one particular card across the deck, the discard
pile and all live hands. -/
def cardCount (x : Card) (s : GState) : Nat :=
  s.deck.count x + s.dis.count x + (s.hands.map fun h => h.cards.count x).sum

/-- A normalized player choice as read by `hdlPlay` (`H`it, `S`tand,
`D`ouble down, s`P`lit, or anything else). -/
inductive Choice where
  | H
  | S
  | D
  | P
  | other
deriving DecidableEq, Repr

/-- Embedding of `playHit`: deal one card from the supply onto the hand. -/
def playHit (rnd : List (Nat × Nat)) (hand : Hand) (s : Supply) :
    Except Unit (Hand × Supply) :=
  match dealCrd rnd s with
  | Except.error e => Except.error e
  | Except.ok (c, s') => Except.ok ({ hand with cards := hand.cards ++ [c] }, s')

/-- Embedding of `playSplt`. The returned `Option Hand` is the newly created
hand when the split proceeds and `none` when it is refused (wrong shape or
not enough chips), in which case everything is returned unchanged. On
success: the bet is deducted once more, the second card moves to the new
hand (flagged `isplit`), and one replacement card is dealt to the original
hand first, then to the new hand. -/
def playSplt (rnd : List (Nat × Nat)) (chips : Nat) (origHnd : Hand) (s : Supply) :
    Except Unit (Nat × Hand × Option Hand × Supply) :=
  match origHnd.cards with
  | [c1, c2] =>
    if c1.rank ≠ c2.rank then Except.ok (chips, origHnd, none, s)
    else if chips < origHnd.bet then Except.ok (chips, origHnd, none, s)
    else
      match dealCrd rnd s with
      | Except.error e => Except.error e
      | Except.ok (c3, s') =>
        match dealCrd rnd s' with
        | Except.error e => Except.error e
        | Except.ok (c4, s'') =>
          Except.ok (chips - origHnd.bet,
            { origHnd with cards := [c1, c3] },
            some { cards := [c2, c4], bet := origHnd.bet, isplit := true, ddown := false },
            s'')
  | _ => Except.ok (chips, origHnd, none, s)

/-- Embedding of `playDD`: refused (no state change) unless the hand has
exactly two cards and the balance covers the bet; otherwise deduct the
original bet, double the hand's bet, set the double-down flag, and deal
exactly one card. -/
def playDD (rnd : List (Nat × Nat)) (chips : Nat) (hand : Hand) (s : Supply) :
    Except Unit (Nat × Hand × Supply) :=
  if hand.cards.length ≠ 2 then Except.ok (chips, hand, s)
  else if chips < hand.bet then Except.ok (chips, hand, s)
  else
    match playHit rnd { hand with bet := hand.bet * 2, ddown := true } s with
    | Except.error e => Except.error e
    | Except.ok (h', s') => Except.ok (chips - hand.bet, h', s')

/-- The split-Aces guard of `hdlPlay` (line 459): the current hand is
split-derived, holds exactly two cards, and both are Aces. -/
def splitAceGuard (h : Hand) : Bool :=
  match h.cards with
  | [c1, c2] => h.isplit && c1.rank == "A" && c2.rank == "A"
  | _ => false

/-- Split eligibility as displayed by `hdlPlay` (line 490): exactly two
cards of the same rank on a hand that is not itself split-derived. -/
def canSplt (h : Hand) : Bool :=
  match h.cards with
  | [c1, c2] => (c1.rank == c2.rank) && !h.isplit
  | _ => false

/-- Double-down eligibility as displayed by `hdlPlay` (line 491): exactly
two cards and a balance covering the current bet. -/
def canDbl (chips : Nat) (h : Hand) : Bool :=
  h.cards.length == 2 && chips ≥ h.bet

/-- Prepend a finished hand onto the hand list returned by the rest of the
decision phase. -/
def prependHand (r : Except Unit (Nat × List Hand × Supply × List Choice))
    (h : Hand) : Except Unit (Nat × List Hand × Supply × List Choice) :=
  match r with
  | Except.error e => Except.error e
  | Except.ok (chips, hands, s, script) => Except.ok (chips, h :: hands, s, script)

mutual

/-- Embedding of the outer `while (it != p.hands.end())` loop of `hdlPlay`,
walking the hand list. A freshly doubled hand and a two-Ace split hand are
skipped without prompting; otherwise the inner choice loop runs on the
current hand. The fuel argument bounds the number of loop iterations and is
consumed only by the model (the C++ loops are unbounded); `script` is the
sequence of choices typed at the prompt, one consumed per prompt. -/
def hdlOuter : Nat → List Choice → Nat → List Hand → Supply → List (Nat × Nat) →
    Except Unit (Nat × List Hand × Supply × List Choice)
  | 0, _, _, _, _, _ => Except.error ()
  | _ + 1, script, chips, [], s, _ => Except.ok (chips, [], s, script)
  | fuel + 1, script, chips, cur :: rest, s, rnd =>
    if cur.ddown then
      prependHand (hdlOuter fuel script chips rest s rnd) cur
    else if splitAceGuard cur then
      prependHand (hdlOuter fuel script chips rest s rnd) cur
    else
      hdlInner fuel script chips cur rest s rnd

/-- Embedding of the inner `while (!done)` loop of `hdlPlay`: auto-stop on a
bust or on 21, otherwise consume one scripted choice; hit repeats the inner
loop, stand finishes the hand, an eligible double-down doubles and finishes,
an eligible split rebuilds the hand list (new hand right after the original)
and re-enters the outer loop still focused on the original hand, and any
other input is rejected with no state change. -/
def hdlInner : Nat → List Choice → Nat → Hand → List Hand → Supply → List (Nat × Nat) →
    Except Unit (Nat × List Hand × Supply × List Choice)
  | 0, _, _, _, _, _, _ => Except.error ()
  | fuel + 1, script, chips, cur, rest, s, rnd =>
    if calcScr cur > 21 then
      prependHand (hdlOuter fuel script chips rest s rnd) cur
    else if calcScr cur = 21 then
      prependHand (hdlOuter fuel script chips rest s rnd) cur
    else
      match script with
      | [] => Except.error ()
      | choice :: script' =>
        match choice with
        | Choice.H =>
          match playHit rnd cur s with
          | Except.error e => Except.error e
          | Except.ok (cur', s') => hdlInner fuel script' chips cur' rest s' rnd
        | Choice.S => prependHand (hdlOuter fuel script' chips rest s rnd) cur
        | Choice.D =>
          if canDbl chips cur then
            match playDD rnd chips cur s with
            | Except.error e => Except.error e
            | Except.ok (chips', cur', s') =>
              prependHand (hdlOuter fuel script' chips' rest s' rnd) cur'
          else hdlInner fuel script' chips cur rest s rnd
        | Choice.P =>
          if canSplt cur then
            match playSplt rnd chips cur s with
            | Except.error e => Except.error e
            | Except.ok (chips', cur', newOpt, s') =>
              match newOpt with
              | none => hdlOuter fuel script' chips' (cur' :: rest) s' rnd
              | some newHnd => hdlOuter fuel script' chips' (cur' :: newHnd :: rest) s' rnd
          else hdlInner fuel script' chips cur rest s rnd
        | Choice.other => hdlInner fuel script' chips cur rest s rnd

end

/-- Embedding of the dealer loop in `playRnd`: draw while the score is
below 17, stop as soon as it reaches 17. -/
def dealerPlay : Nat → List (Nat × Nat) → Hand → Supply → Except Unit (Hand × Supply)
  | 0, _, _, _ => Except.error ()
  | fuel + 1, rnd, hand, s =>
    if calcScr hand < 17 then
      match dealCrd rnd s with
      | Except.error e => Except.error e
      | Except.ok (c, s') => dealerPlay fuel rnd { hand with cards := hand.cards ++ [c] } s'
    else Except.ok (hand, s)

/-- Run the decision phase for each player in turn-queue order, consuming
one script per player. -/
def playersPhase (fuel : Nat) (rnd : List (Nat × Nat)) :
    List (List Choice) → List Player → Supply → Except Unit (List Player × Supply)
  | _, [], s => Except.ok ([], s)
  | scripts, p :: ps, s =>
    match hdlOuter fuel (scripts.headD []) p.chips p.hands s rnd with
    | Except.error e => Except.error e
    | Except.ok (chips', hands', s', _) =>
      match playersPhase fuel rnd scripts.tail ps s' with
      | Except.error e => Except.error e
      | Except.ok (ps', s'') =>
        Except.ok ({ p with chips := chips', hands := hands' } :: ps', s'')

/-- Append a freshly dealt card to a player's first hand (every player holds
exactly one hand at deal time). -/
def appendToFirst (hands : List Hand) (c : Card) : List Hand :=
  match hands with
  | [] => []
  | h :: rest => { h with cards := h.cards ++ [c] } :: rest

/-- Deal one card to each player in queue order, as in the initial deal
loops of `playRnd`. -/
def dealToEach (rnd : List (Nat × Nat)) :
    List Player → Supply → Except Unit (List Player × Supply)
  | [], s => Except.ok ([], s)
  | p :: ps, s =>
    match dealCrd rnd s with
    | Except.error e => Except.error e
    | Except.ok (c, s') =>
      match dealToEach rnd ps s' with
      | Except.error e => Except.error e
      | Except.ok (ps', s'') =>
        Except.ok ({ p with hands := appendToFirst p.hands c } :: ps', s'')

/-- The settlement loop over one player's hands: a hand with a positive bet
is settled with `setHnd`, any other hand is just discarded. -/
def settleHands (dlHnd : Hand) : Nat → List Hand → List Card → Nat × List Hand × List Card
  | chips, [], dis => (chips, [], dis)
  | chips, h :: hs, dis =>
    let step := if h.bet > 0 then setHnd chips h dlHnd dis else (chips, discHnd h dis)
    let next := settleHands dlHnd step.1 hs step.2.2
    (next.1, step.2.1 :: next.2.1, next.2.2)

/-- Settle all of one player's hands, then prune the emptied hands
(`remove_if` on an empty card list). -/
def settlePlayer (p : Player) (dlHnd : Hand) (dis : List Card) : Player × List Card :=
  let r := settleHands dlHnd p.chips p.hands dis
  ({ p with chips := r.1, hands := r.2.1.filter fun h => !h.cards.isEmpty }, r.2.2)

/-- Settle every player against the dealer's final hand. -/
def settleAll : List Player → Hand → List Card → List Player × List Card
  | [], _, dis => ([], dis)
  | p :: ps, dlHnd, dis =>
    let r := settlePlayer p dlHnd dis
    let rs := settleAll ps dlHnd r.2
    (r.1 :: rs.1, rs.2)

/-- The portion of `playRnd` after the initial deal: if the dealer holds a
natural, both the participant decision phases and the dealer draw loop are
skipped; then every player is settled and the dealer hand is discarded. -/
def playRndAfterDeal (fuel : Nat) (scripts : List (List Choice))
    (rnd : List (Nat × Nat)) (players : List Player) (dlHnd : Hand) (s : Supply) :
    Except Unit (List Player × Hand × Supply) := do
  let dealrNat := is_nat dlHnd
  let (ps', s') ←
    if dealrNat then pure (players, s)
    else playersPhase fuel rnd scripts players s
  let (dl', s'') ←
    if dealrNat then pure (dlHnd, s')
    else dealerPlay fuel rnd dlHnd s'
  let r := settleAll ps' dl' s''.dis
  let rd := discHnd dl' r.2
  pure (r.1, rd.1, ⟨s''.deck, rd.2⟩)

/-- Embedding of `playRnd` from the initial deal onward: one card to every
player then the dealer, a second card likewise, then the post-deal phases. -/
def playRnd (fuel : Nat) (scripts : List (List Choice)) (rnd : List (Nat × Nat))
    (players : List Player) (dealr : Hand) (s : Supply) :
    Except Unit (List Player × Hand × Supply) := do
  let (ps1, s1) ← dealToEach rnd players s
  let (c1, s2) ← dealCrd rnd s1
  let (ps2, s3) ← dealToEach rnd ps1 s2
  let (c2, s4) ← dealCrd rnd s3
  let dl := { dealr with cards := dealr.cards ++ [c1] ++ [c2] }
  playRndAfterDeal fuel scripts rnd ps2 dl s4

lemma calcScr_foldl (l : List Card) (a b : Nat) :
    l.foldl
      (fun acc c => if c.rank = "A" then (acc.1, acc.2 + 1) else (acc.1 + c.value, acc.2))
      (a, b)
    = (a + ((l.filter fun c => c.rank ≠ "A").map Card.value).sum,
       b + (l.filter fun c => c.rank = "A").length) := by
  induction l generalizing a b with
  | nil => simp
  | cons c l ih =>
    by_cases hc : c.rank = "A" <;>
      simp [List.filter_cons, hc, ih] <;> omega

lemma calcScr_eq_scoreSpec (h : Hand) : calcScr h = scoreSpec h := by
  unfold calcScr scoreSpec
  rcases hc : h.cards with _ | ⟨c, l⟩
  · simp [hc, soften]
  · simp only [hc, List.isEmpty_cons, if_neg Bool.false_ne_true, calcScr_foldl]
    have : ((List.filter (fun c => decide (c.rank = "A")) (c :: l)).length) * 11
        = 11 * ((List.filter (fun c => decide (c.rank = "A")) (c :: l)).length) :=
      Nat.mul_comm _ _
    simp [Nat.zero_add, Nat.mul_comm]

/-- C1: the score is the sum of the primary values of non-ace cards plus 11
per ace, softened by 10 per ace while above 21 (`scoreSpec`); a hand with no
aces scores exactly the sum of its card values; the empty hand scores 0. -/
theorem calcScr_matches_spec :
    (∀ h : Hand, calcScr h = scoreSpec h) ∧
    (∀ h : Hand, (∀ c ∈ h.cards, c.rank ≠ "A") →
      calcScr h = (h.cards.map Card.value).sum) ∧
    (∀ h : Hand, h.cards = [] → calcScr h = 0) := by
  refine ⟨calcScr_eq_scoreSpec, ?_, ?_⟩
  · intro h hnoace
    rw [calcScr_eq_scoreSpec]
    unfold scoreSpec
    have hfilter : (h.cards.filter fun c => !decide (c.rank = "A")) = h.cards :=
      List.filter_eq_self.mpr (fun c hc => by simpa using hnoace c hc)
    have hfilter2 : (h.cards.filter fun c => c.rank = "A") = [] := by
      apply List.filter_eq_nil_iff.mpr
      intro c hc
      simpa using hnoace c hc
    simp [hfilter, hfilter2, soften]
  · intro h hc
    unfold calcScr
    simp [hc]

/-- Witness for C1 at a concrete no-ace hand {10♠, 9♥}. -/
theorem calcScr_matches_spec_witness :
    calcScr { cards := [⟨"10", "♠", 10⟩, ⟨"9", "♥", 9⟩] }
      = ((({ cards := [⟨"10", "♠", 10⟩, ⟨"9", "♥", 9⟩] } : Hand)).cards.map Card.value).sum :=
  calcScr_matches_spec.2.1 { cards := [⟨"10", "♠", 10⟩, ⟨"9", "♥", 9⟩] } (by decide)

/-- C2: settling a hand credits the balance by exactly the amount the
specification's precedence list assigns (`settleRule`), for every hand and
dealer hand, in particular for every hand with a nonzero wager. -/
theorem setHnd_credits_by_rule (chips : Nat) (hand dlHnd : Hand) (dis : List Card) :
    (setHnd chips hand dlHnd dis).1 = chips + settleRule hand dlHnd := by
  unfold setHnd settleRule
  split_ifs <;> simp [Nat.mul_comm, Nat.add_assoc]

/-- Witness for C2: the spec scenario player {10♠,9♥} = 19 against dealer
{10♣,8♦} = 18 with wager 10 credits exactly 20. -/
theorem setHnd_credits_by_rule_witness :
    (setHnd 0 { cards := [⟨"10", "♠", 10⟩, ⟨"9", "♥", 9⟩], bet := 10 }
      { cards := [⟨"10", "♣", 10⟩, ⟨"8", "♦", 8⟩] } []).1 = 0 + 20 := by
  have h := setHnd_credits_by_rule 0
    { cards := [⟨"10", "♠", 10⟩, ⟨"9", "♥", 9⟩], bet := 10 }
    { cards := [⟨"10", "♣", 10⟩, ⟨"8", "♦", 8⟩] } []
  rw [h]
  decide

/-- C5: `is_nat` holds exactly for two-card hands scoring 21 that are not
split-derived, and every split-derived hand is never natural. -/
theorem is_nat_iff :
    (∀ h : Hand, is_nat h = true ↔
      (calcScr h = 21 ∧ h.cards.length = 2 ∧ h.isplit = false)) ∧
    (∀ h : Hand, h.isplit = true → is_nat h = false) := by
  constructor
  · intro h
    unfold is_nat
    simp [Bool.and_eq_true, decide_eq_true_eq, Bool.not_eq_true', and_assoc]
  · intro h hsplit
    unfold is_nat
    simp [hsplit]

/-- Witness for C5: the split hand {A♠, K♥} scores 21 with two cards yet is
not a natural. -/
theorem is_nat_iff_witness :
    is_nat { cards := [⟨"A", "♠", 11⟩, ⟨"K", "♥", 10⟩], bet := 10, isplit := true }
      = false :=
  is_nat_iff.2 { cards := [⟨"A", "♠", 11⟩, ⟨"K", "♥", 10⟩], bet := 10, isplit := true } rfl

lemma shufStep_perm {n : Nat} {l : List Card} (hl : l.length = n) (ab : Nat × Nat) :
    (shufStep n l ab).Perm l := by
  unfold shufStep
  split
  · exact List.Perm.refl l
  · rename_i c hc
    have hi : ab.1 % n < l.length := by
      by_contra hge
      rw [List.getElem?_eq_none (Nat.le_of_not_lt hge)] at hc
      exact Option.noConfusion hc
    have hc' : l[ab.1 % n] = c := by
      rw [List.getElem?_eq_getElem hi] at hc
      exact Option.some.inj hc
    have hlen : (l.eraseIdx (ab.1 % n)).length + 1 = l.length :=
      List.length_eraseIdx_add_one hi
    have hn : 0 < n := Nat.pos_of_ne_zero (by
      intro h0
      rw [h0] at hi
      omega)
    have h1 : ((l.eraseIdx (ab.1 % n)).insertIdx (ab.2 % n) c).Perm
        (c :: l.eraseIdx (ab.1 % n)) :=
      List.perm_insertIdx c _ (by
        have := Nat.mod_lt ab.2 hn
        omega)
    have h2 : (l.erase c).Perm (l.eraseIdx (ab.1 % n)) := by
      rw [← hc']
      exact List.erase_getElem hi
    have h3 : l.Perm (c :: l.erase c) :=
      List.perm_cons_erase (hc' ▸ List.getElem_mem hi)
    exact h1.trans ((List.Perm.cons c h2.symm).trans h3.symm)

lemma foldl_shufStep_perm (n : Nat) :
    ∀ (rnd : List (Nat × Nat)) (l : List Card), l.length = n →
      (rnd.foldl (shufStep n) l).Perm l
  | [], l, _ => List.Perm.refl l
  | ab :: rnd, l, hl => by
    have h1 := shufStep_perm hl ab
    have h2 : (shufStep n l ab).length = n := by rw [h1.length_eq, hl]
    exact (foldl_shufStep_perm n rnd _ h2).trans h1

lemma shufDk_perm (rnd : List (Nat × Nat)) (deck : List Card) :
    (shufDk rnd deck).Perm deck := by
  unfold shufDk
  split
  · exact List.Perm.refl deck
  · exact foldl_shufStep_perm _ rnd deck rfl

lemma dealCrd_total {rnd : List (Nat × Nat)} {s : Supply} {c : Card} {s' : Supply}
    (h : dealCrd rnd s = Except.ok (c, s')) :
    s'.deck.length + s'.dis.length + 1 = s.deck.length + s.dis.length := by
  unfold dealCrd at h
  rcases hd : s.deck with _ | ⟨c₀, rest⟩
  · rw [hd] at h
    rcases hs : shufDk rnd s.dis with _ | ⟨c₁, rest₁⟩ <;> rw [hs] at h
    · exact Except.noConfusion h
    · have hperm := shufDk_perm rnd s.dis
      rw [hs] at hperm
      have hlen := hperm.length_eq
      cases h
      simp only [hd, List.length_nil]
      simp at hlen
      omega
  · rw [hd] at h
    cases h
    simp only [hd, List.length_cons]
    omega

lemma sum_map_set (f : Hand → Nat) (l : List Hand) (t : Nat) (a : Hand)
    (ht : t < l.length) :
    ((l.set t a).map f).sum + f l[t] = (l.map f).sum + f a := by
  induction l generalizing t with
  | nil => simp at ht
  | cons b l ih =>
    cases t with
    | zero => simp [List.set]; omega
    | succ t =>
      have ht' : t < l.length := by simpa using ht
      have := ih t ht'
      simp only [List.set, List.map_cons, List.sum_cons, List.getElem_cons_succ]
      omega

lemma measure_nil {μ : List Card → Nat}
    (hadd : ∀ l₁ l₂ : List Card, μ (l₁ ++ l₂) = μ l₁ + μ l₂) : μ [] = 0 := by
  have := hadd [] []
  simpa using this

lemma dealCrd_measure (μ : List Card → Nat)
    (hadd : ∀ l₁ l₂ : List Card, μ (l₁ ++ l₂) = μ l₁ + μ l₂)
    (hperm : ∀ l₁ l₂ : List Card, l₁.Perm l₂ → μ l₁ = μ l₂)
    {rnd : List (Nat × Nat)} {s : Supply} {c : Card} {s' : Supply}
    (h : dealCrd rnd s = Except.ok (c, s')) :
    μ s'.deck + μ s'.dis + μ [c] = μ s.deck + μ s.dis := by
  unfold dealCrd at h
  rcases hd : s.deck with _ | ⟨c₀, rest⟩
  · rw [hd] at h
    rcases hs : shufDk rnd s.dis with _ | ⟨c₁, rest₁⟩ <;> rw [hs] at h
    · exact Except.noConfusion h
    · have hp : (c₁ :: rest₁).Perm s.dis := hs ▸ shufDk_perm rnd s.dis
      have hperm₁ : μ s.dis = μ (c₁ :: rest₁) := (hperm _ _ hp).symm
      cases h
      have h1 : μ (c :: rest₁) = μ [c] + μ rest₁ := hadd [c] rest₁
      have h0 : μ ([] : List Card) = 0 := measure_nil hadd
      dsimp only
      omega
  · rw [hd] at h
    cases h
    have h1 : μ (c :: rest) = μ [c] + μ rest := hadd [c] rest
    dsimp only
    omega

lemma applyOp_measure (μ : List Card → Nat)
    (hadd : ∀ l₁ l₂ : List Card, μ (l₁ ++ l₂) = μ l₁ + μ l₂)
    (hperm : ∀ l₁ l₂ : List Card, l₁.Perm l₂ → μ l₁ = μ l₂)
    {s : GState} {op : GOp} {s' : GState} (h : applyOp s op = some s') :
    μ s'.deck + μ s'.dis + (s'.hands.map fun hd => μ hd.cards).sum
      = μ s.deck + μ s.dis + (s.hands.map fun hd => μ hd.cards).sum := by
  cases op with
  | deal t rnd =>
    simp only [applyOp] at h
    by_cases ht : t < s.hands.length
    · rw [dif_pos ht] at h
      rcases hdc : dealCrd rnd ⟨s.deck, s.dis⟩ with _ | ⟨c, sup⟩ <;> rw [hdc] at h
      · exact Option.noConfusion h
      · cases h
        have hm := dealCrd_measure μ hadd hperm hdc
        have hset := sum_map_set (fun hd => μ hd.cards) s.hands t
          { s.hands[t] with cards := s.hands[t].cards ++ [c] } ht
        dsimp only at hset
        rw [hadd s.hands[t].cards [c]] at hset
        dsimp only at hm ⊢
        omega
    · rw [dif_neg ht] at h
      exact Option.noConfusion h
  | discard i =>
    simp only [applyOp] at h
    by_cases hi : i < s.hands.length
    · rw [dif_pos hi] at h
      cases h
      have hset := sum_map_set (fun hd => μ hd.cards) s.hands i
        (discHnd s.hands[i] s.dis).1 hi
      have h0 : μ ([] : List Card) = 0 := measure_nil hadd
      have hrev : μ s.hands[i].cards.reverse = μ s.hands[i].cards :=
        hperm _ _ (List.reverse_perm _)
      simp only [discHnd] at hset ⊢
      rw [hadd s.hands[i].cards.reverse s.dis]
      rw [h0] at hset
      omega
    · rw [dif_neg hi] at h
      exact Option.noConfusion h
  | shuffle rnd =>
    unfold applyOp at h
    cases h
    dsimp only
    rw [hperm _ _ (shufDk_perm rnd s.deck)]

lemma applyAll_measure (μ : List Card → Nat)
    (hadd : ∀ l₁ l₂ : List Card, μ (l₁ ++ l₂) = μ l₁ + μ l₂)
    (hperm : ∀ l₁ l₂ : List Card, l₁.Perm l₂ → μ l₁ = μ l₂) :
    ∀ (ops : List GOp) (s s' : GState), applyAll ops s = some s' →
      μ s'.deck + μ s'.dis + (s'.hands.map fun hd => μ hd.cards).sum
        = μ s.deck + μ s.dis + (s.hands.map fun hd => μ hd.cards).sum
  | [], s, s', h => by
    cases h
    rfl
  | op :: rest, s, s', h => by
    unfold applyAll at h
    rcases ha : applyOp s op with _ | s₁ <;> rw [ha] at h
    · exact Option.noConfusion h
    · exact (applyAll_measure μ hadd hperm rest s₁ s' h).trans
        (applyOp_measure μ hadd hperm ha)

lemma oneSet_length : oneSet.length = 52 := by decide

lemma createDk_length (n : Nat) : (createDk n).deck.length = 52 * n := by
  unfold createDk
  simp only [List.length_flatten, List.map_replicate, oneSet_length]
  rw [List.sum_const_nat]
  omega

/-- C7: every card's copy-count across deck, discard pile and live hands is
preserved by each draw, whole-hand discard and reshuffle (no card is
duplicated or lost), and after any successful sequence of such operations
starting from a fresh `numSets`-deck supply with empty hands the total card
count is exactly 52 × numSets. -/
theorem supply_conservation :
    (∀ (x : Card) (s : GState) (op : GOp) (s' : GState),
      applyOp s op = some s' → cardCount x s' = cardCount x s) ∧
    (∀ (numSets : Nat) (hands₀ : List Hand) (ops : List GOp) (s' : GState),
      (∀ h ∈ hands₀, h.cards = []) →
      applyAll ops ⟨(createDk numSets).deck, (createDk numSets).dis, hands₀⟩ = some s' →
      totalCards s' = 52 * numSets) := by
  constructor
  · intro x s op s' h
    exact applyOp_measure (fun l => l.count x)
      (fun l₁ l₂ => List.count_append x l₁ l₂)
      (fun l₁ l₂ hp => hp.count_eq x) h
  · intro numSets hands₀ ops s' hempty h
    have hm := applyAll_measure (fun l => l.length)
      (fun l₁ l₂ => List.length_append l₁ l₂)
      (fun l₁ l₂ hp => hp.length_eq) ops _ s' h
    have hzero : ((hands₀.map fun hd => hd.cards.length).sum) = 0 := by
      apply List.sum_eq_zero
      intro x hx
      rcases List.mem_map.mp hx with ⟨hd, hmem, hval⟩
      rw [hempty hd hmem] at hval
      simpa using hval.symm
    unfold totalCards
    have hlen : (createDk numSets).deck.length = 52 * numSets := createDk_length numSets
    have hdis : (createDk numSets).dis.length = 0 := rfl
    dsimp only at hm
    omega

/-- Witness for C7: discarding a two-card hand moves both cards to the
discard pile and keeps the count of A♠ across the pools unchanged. -/
theorem supply_conservation_witness :
    cardCount ⟨"A", "♠", 11⟩
        ⟨[], [⟨"K", "♥", 10⟩, ⟨"A", "♠", 11⟩], [{ cards := [], bet := 0 }]⟩
      = cardCount ⟨"A", "♠", 11⟩
        ⟨[], [], [{ cards := [⟨"A", "♠", 11⟩, ⟨"K", "♥", 10⟩], bet := 10 }]⟩ :=
  supply_conservation.1 ⟨"A", "♠", 11⟩
    ⟨[], [], [{ cards := [⟨"A", "♠", 11⟩, ⟨"K", "♥", 10⟩], bet := 10 }]⟩
    (GOp.discard 0)
    ⟨[], [⟨"K", "♥", 10⟩, ⟨"A", "♠", 11⟩], [{ cards := [], bet := 0 }]⟩
    (by decide)

lemma dealCrd_error_of_empty (rnd : List (Nat × Nat)) {s : Supply}
    (hdeck : s.deck = []) (hdis : s.dis = []) : dealCrd rnd s = Except.error () := by
  unfold dealCrd
  rw [hdeck]
  have hs : shufDk rnd s.dis = [] := by
    rw [hdis]
    rfl
  rw [hs]

lemma dealCrd_ok_of_nonempty (rnd : List (Nat × Nat)) {s : Supply}
    (h : s.deck ≠ [] ∨ s.dis ≠ []) : ∃ c s', dealCrd rnd s = Except.ok (c, s') := by
  unfold dealCrd
  rcases hd : s.deck with _ | ⟨c, rest⟩
  · rcases hs : shufDk rnd s.dis with _ | ⟨c₁, rest₁⟩
    · rcases h with h | h
      · exact absurd hd h
      · have := (shufDk_perm rnd s.dis).length_eq
        rw [hs] at this
        rcases hdis : s.dis with _ | _
        · exact absurd hdis h
        · rw [hdis] at this
          simp at this
    · exact ⟨c₁, ⟨rest₁, []⟩, rfl⟩
  · exact ⟨c, ⟨rest, s.dis⟩, rfl⟩

/-- C8: a draw pops the front card of the deck; on an empty deck the whole
discard pile is reshuffled into the deck (the only way discard cards return,
and the discard pile is emptied by it); the draw fails exactly when both
deck and discard pile are empty; and such a failure during the initial deal
aborts the entire round with no settlement. -/
theorem dealCrd_recovery_spec :
    (∀ (rnd : List (Nat × Nat)) (c : Card) (rest dis : List Card),
      dealCrd rnd ⟨c :: rest, dis⟩ = Except.ok (c, ⟨rest, dis⟩)) ∧
    (∀ (rnd : List (Nat × Nat)) (dis : List Card) (c : Card) (rest : List Card),
      shufDk rnd dis = c :: rest →
      dealCrd rnd ⟨[], dis⟩ = Except.ok (c, ⟨rest, []⟩)) ∧
    (∀ (rnd : List (Nat × Nat)) (s : Supply) (c : Card) (s' : Supply),
      dealCrd rnd s = Except.ok (c, s') →
      (s.deck ≠ [] ∧ s'.dis = s.dis) ∨ (s.deck = [] ∧ s'.dis = [])) ∧
    (∀ (rnd : List (Nat × Nat)) (s : Supply),
      dealCrd rnd s = Except.error () ↔ (s.deck = [] ∧ s.dis = [])) ∧
    (∀ (fuel : Nat) (scripts : List (List Choice)) (rnd : List (Nat × Nat))
      (p : Player) (ps : List Player) (dealr : Hand) (s : Supply),
      s.deck = [] → s.dis = [] →
      playRnd fuel scripts rnd (p :: ps) dealr s = Except.error ()) := by
  refine ⟨?_, ?_, ?_, ?_, ?_⟩
  · intro rnd c rest dis
    rfl
  · intro rnd dis c rest hs
    unfold dealCrd
    simp only
    rw [hs]
  · intro rnd s c s' h
    unfold dealCrd at h
    rcases hd : s.deck with _ | ⟨c₀, rest⟩ <;> rw [hd] at h
    · rcases hs : shufDk rnd s.dis with _ | ⟨c₁, rest₁⟩ <;> rw [hs] at h
      · exact Except.noConfusion h
      · cases h
        exact Or.inr ⟨rfl, rfl⟩
    · cases h
      exact Or.inl ⟨by simp, rfl⟩
  · intro rnd s
    constructor
    · intro h
      by_contra hne
      rcases dealCrd_ok_of_nonempty rnd (by tauto) with ⟨c, s', hok⟩
      rw [h] at hok
      exact Except.noConfusion hok
    · intro ⟨h1, h2⟩
      exact dealCrd_error_of_empty rnd h1 h2
  · intro fuel scripts rnd p ps dealr s h1 h2
    have hde : dealCrd rnd s = Except.error () := dealCrd_error_of_empty rnd h1 h2
    unfold playRnd dealToEach
    rw [hde]
    rfl

/-- Witness for C8: with both deck and discard pile empty, the round with
one player aborts with an error before any settlement. -/
theorem dealCrd_recovery_spec_witness :
    playRnd 5 [] [] [{ id := 1, name := "P", chips := 100, hands := [{ bet := 10, cards := [] }] }]
      { cards := [] } ⟨[], []⟩ = Except.error () :=
  dealCrd_recovery_spec.2.2.2.2 5 [] [] _ [] _ ⟨[], []⟩ rfl rfl

lemma dealerPlay_stands {fuel : Nat} {rnd : List (Nat × Nat)} {hand : Hand} {s : Supply}
    (h : 17 ≤ calcScr hand) : dealerPlay (fuel + 1) rnd hand s = Except.ok (hand, s) := by
  unfold dealerPlay
  rw [if_neg (by omega)]

lemma dealerPlay_ok_shape :
    ∀ (fuel : Nat) (rnd : List (Nat × Nat)) (hand : Hand) (s : Supply) (h' : Hand) (s' : Supply),
      dealerPlay fuel rnd hand s = Except.ok (h', s') →
      17 ≤ calcScr h' ∧
      h'.bet = hand.bet ∧ h'.isplit = hand.isplit ∧ h'.ddown = hand.ddown ∧
      ∃ ds, h'.cards = hand.cards ++ ds ∧
        ∀ k < ds.length, calcScr { hand with cards := hand.cards ++ ds.take k } < 17
  | 0, _, _, _, _, _, h => Except.noConfusion h
  | fuel + 1, rnd, hand, s, h', s', h => by
    unfold dealerPlay at h
    split_ifs at h with hlt
    · rcases hdc : dealCrd rnd s with _ | ⟨c, s₁⟩ <;> rw [hdc] at h
      · exact Except.noConfusion h
      · obtain ⟨hsc, hbet, hisp, hdd, ds, hcards, hmid⟩ :=
          dealerPlay_ok_shape fuel rnd { hand with cards := hand.cards ++ [c] } s₁ h' s' h
        refine ⟨hsc, hbet, hisp, hdd, c :: ds, ?_, ?_⟩
        · rw [hcards]
          simp
        · intro k hk
          cases k with
          | zero => simpa using hlt
          | succ k =>
            have hk' : k < ds.length := by simpa using hk
            have := hmid k hk'
            simpa [List.append_assoc] using this
    · cases h
      exact ⟨by omega, rfl, rfl, rfl, [], by simp, by simp⟩

/-- C9: if the dealer holds a natural the round goes straight from the deal
to settlement (no participant decision phase, no dealer draw, deck
untouched); otherwise the dealer hand, when its loop completes, scores at
least 17, scored below 17 before every draw it took (it stops at the first
state at or above 17, and draws nothing when already there), and its bet and
flags are never changed (the dealer never wagers, splits or doubles). -/
theorem dealer_policy :
    (∀ (fuel : Nat) (scripts : List (List Choice)) (rnd : List (Nat × Nat))
      (players : List Player) (dlHnd : Hand) (s : Supply), is_nat dlHnd = true →
      playRndAfterDeal fuel scripts rnd players dlHnd s
        = Except.ok ((settleAll players dlHnd s.dis).1,
            (discHnd dlHnd (settleAll players dlHnd s.dis).2).1,
            ⟨s.deck, (discHnd dlHnd (settleAll players dlHnd s.dis).2).2⟩)) ∧
    (∀ (fuel : Nat) (rnd : List (Nat × Nat)) (hand : Hand) (s : Supply),
      17 ≤ calcScr hand → dealerPlay (fuel + 1) rnd hand s = Except.ok (hand, s)) ∧
    (∀ (fuel : Nat) (rnd : List (Nat × Nat)) (hand : Hand) (s : Supply) (h' : Hand) (s' : Supply),
      dealerPlay fuel rnd hand s = Except.ok (h', s') →
      17 ≤ calcScr h' ∧
      h'.bet = hand.bet ∧ h'.isplit = hand.isplit ∧ h'.ddown = hand.ddown ∧
      ∃ ds, h'.cards = hand.cards ++ ds ∧
        ∀ k < ds.length, calcScr { hand with cards := hand.cards ++ ds.take k } < 17) := by
  refine ⟨?_, ?_, ?_⟩
  · intro fuel scripts rnd players dlHnd s hnat
    unfold playRndAfterDeal
    rw [hnat]
    rfl
  · intro fuel rnd hand s h
    exact dealerPlay_stands h
  · exact dealerPlay_ok_shape

/-- Witness for C9: the dealer hand {10♠,6♥} completes as {10♠,6♥,2♦} = 18
at or above 17, with bet and flags untouched and every draw taken below
17. -/
theorem dealer_policy_witness :
    17 ≤ calcScr { cards := [⟨"10", "♠", 10⟩, ⟨"6", "♥", 6⟩, ⟨"2", "♦", 2⟩] } ∧
    ({ cards := [⟨"10", "♠", 10⟩, ⟨"6", "♥", 6⟩, ⟨"2", "♦", 2⟩] } : Hand).bet
      = ({ cards := [⟨"10", "♠", 10⟩, ⟨"6", "♥", 6⟩] } : Hand).bet ∧
    ({ cards := [⟨"10", "♠", 10⟩, ⟨"6", "♥", 6⟩, ⟨"2", "♦", 2⟩] } : Hand).isplit
      = ({ cards := [⟨"10", "♠", 10⟩, ⟨"6", "♥", 6⟩] } : Hand).isplit ∧
    ({ cards := [⟨"10", "♠", 10⟩, ⟨"6", "♥", 6⟩, ⟨"2", "♦", 2⟩] } : Hand).ddown
      = ({ cards := [⟨"10", "♠", 10⟩, ⟨"6", "♥", 6⟩] } : Hand).ddown ∧
    ∃ ds, ({ cards := [⟨"10", "♠", 10⟩, ⟨"6", "♥", 6⟩, ⟨"2", "♦", 2⟩] } : Hand).cards
        = ({ cards := [⟨"10", "♠", 10⟩, ⟨"6", "♥", 6⟩] } : Hand).cards ++ ds ∧
      ∀ k < ds.length,
        calcScr { ({ cards := [⟨"10", "♠", 10⟩, ⟨"6", "♥", 6⟩] } : Hand) with
          cards := ({ cards := [⟨"10", "♠", 10⟩, ⟨"6", "♥", 6⟩] } : Hand).cards ++ ds.take k } < 17 :=
  dealer_policy.2.2 3 [] { cards := [⟨"10", "♠", 10⟩, ⟨"6", "♥", 6⟩] }
    ⟨[⟨"2", "♦", 2⟩, ⟨"9", "♣", 9⟩], []⟩
    { cards := [⟨"10", "♠", 10⟩, ⟨"6", "♥", 6⟩, ⟨"2", "♦", 2⟩] }
    ⟨[⟨"9", "♣", 9⟩], []⟩ rfl

lemma playSplt_not_two {rnd : List (Nat × Nat)} {chips : Nat} {h : Hand} {s : Supply}
    (hlen : h.cards.length ≠ 2) :
    playSplt rnd chips h s = Except.ok (chips, h, none, s) := by
  unfold playSplt
  rcases hc : h.cards with _ | ⟨c1, _ | ⟨c2, _ | ⟨c3, t⟩⟩⟩
  · rfl
  · rfl
  · exact absurd (by simp [hc]) hlen
  · rfl

lemma playSplt_rank_ne {rnd : List (Nat × Nat)} {chips : Nat} {c1 c2 : Card}
    {bet : Nat} {isp dd : Bool} {s : Supply} (hr : c1.rank ≠ c2.rank) :
    playSplt rnd chips ⟨[c1, c2], bet, isp, dd⟩ s
      = Except.ok (chips, ⟨[c1, c2], bet, isp, dd⟩, none, s) := by
  unfold playSplt
  dsimp only
  rw [if_pos hr]

lemma playSplt_poor {rnd : List (Nat × Nat)} {chips : Nat} {h : Hand} {s : Supply}
    (hpoor : chips < h.bet) :
    playSplt rnd chips h s = Except.ok (chips, h, none, s) := by
  unfold playSplt
  rcases hc : h.cards with _ | ⟨c1, _ | ⟨c2, _ | ⟨c3, t⟩⟩⟩
  · rfl
  · rfl
  · dsimp only
    by_cases hr : c1.rank ≠ c2.rank
    · rw [if_pos hr]
    · rw [if_neg hr, if_pos hpoor]
  · rfl

lemma playSplt_go {rnd : List (Nat × Nat)} {chips : Nat} {c1 c2 : Card} {bet : Nat}
    {isp dd : Bool} {d1 d2 : Card} {ds dis : List Card}
    (hr : c1.rank = c2.rank) (hchips : bet ≤ chips) :
    playSplt rnd chips ⟨[c1, c2], bet, isp, dd⟩ ⟨d1 :: d2 :: ds, dis⟩
      = Except.ok (chips - bet, ⟨[c1, d1], bet, isp, dd⟩,
          some ⟨[c2, d2], bet, true, false⟩, ⟨ds, dis⟩) := by
  unfold playSplt
  dsimp only
  rw [if_neg (not_not_intro hr), if_neg (Nat.not_lt.mpr hchips)]
  rfl

lemma playSplt_ok_shape {rnd : List (Nat × Nat)} {chips : Nat} {cur : Hand} {s : Supply}
    {chips' : Nat} {cur' : Hand} {newOpt : Option Hand} {s' : Supply}
    (h : playSplt rnd chips cur s = Except.ok (chips', cur', newOpt, s')) :
    cur'.ddown = cur.ddown ∧ ∀ nh, newOpt = some nh → nh.ddown = false := by
  unfold playSplt at h
  rcases hc : cur.cards with _ | ⟨c1, _ | ⟨c2, _ | ⟨c3, t⟩⟩⟩ <;> rw [hc] at h
  · cases h
    exact ⟨rfl, fun nh hnh => Option.noConfusion hnh⟩
  · cases h
    exact ⟨rfl, fun nh hnh => Option.noConfusion hnh⟩
  · dsimp only at h
    by_cases hr : c1.rank ≠ c2.rank
    · rw [if_pos hr] at h
      cases h
      exact ⟨rfl, fun nh hnh => Option.noConfusion hnh⟩
    · rw [if_neg hr] at h
      by_cases hpoor : chips < cur.bet
      · rw [if_pos hpoor] at h
        cases h
        exact ⟨rfl, fun nh hnh => Option.noConfusion hnh⟩
      · rw [if_neg hpoor] at h
        rcases hdc1 : dealCrd rnd s with _ | ⟨c3, s₁⟩ <;> rw [hdc1] at h
        · exact Except.noConfusion h
        · dsimp only at h
          rcases hdc2 : dealCrd rnd s₁ with _ | ⟨c4, s₂⟩ <;> rw [hdc2] at h
          · exact Except.noConfusion h
          · dsimp only at h
            cases h
            refine ⟨rfl, fun nh hnh => ?_⟩
            cases hnh
            rfl
  · cases h
    exact ⟨rfl, fun nh hnh => Option.noConfusion hnh⟩

lemma playDD_not_two {rnd : List (Nat × Nat)} {chips : Nat} {h : Hand} {s : Supply}
    (hlen : h.cards.length ≠ 2) :
    playDD rnd chips h s = Except.ok (chips, h, s) := by
  unfold playDD
  rw [if_pos hlen]

lemma playDD_poor {rnd : List (Nat × Nat)} {chips : Nat} {h : Hand} {s : Supply}
    (hpoor : chips < h.bet) :
    playDD rnd chips h s = Except.ok (chips, h, s) := by
  unfold playDD
  by_cases hlen : h.cards.length ≠ 2
  · rw [if_pos hlen]
  · rw [if_neg hlen, if_pos hpoor]

lemma playDD_go {rnd : List (Nat × Nat)} {chips : Nat} {hand : Hand} {s : Supply}
    {c : Card} {s₁ : Supply}
    (hlen : hand.cards.length = 2) (hbet : hand.bet ≤ chips)
    (hdc : dealCrd rnd s = Except.ok (c, s₁)) :
    playDD rnd chips hand s
      = Except.ok (chips - hand.bet,
          { hand with bet := hand.bet * 2, ddown := true, cards := hand.cards ++ [c] }, s₁) := by
  unfold playDD playHit
  rw [if_neg (by omega), if_neg (Nat.not_lt.mpr hbet), hdc]

lemma playDD_ok_shape {rnd : List (Nat × Nat)} {chips : Nat} {cur : Hand} {s : Supply}
    {chips₁ : Nat} {cur₁ : Hand} {s₁ : Supply}
    (h : playDD rnd chips cur s = Except.ok (chips₁, cur₁, s₁)) :
    (cur₁ = cur) ∨ (cur₁.ddown = true ∧ cur₁.cards.length = 3 ∧ cur.cards.length = 2) := by
  unfold playDD at h
  split_ifs at h with hlen hpoor
  · cases h
    exact Or.inl rfl
  · cases h
    exact Or.inl rfl
  · unfold playHit at h
    rcases hdc : dealCrd rnd s with _ | ⟨c, s₂⟩ <;> rw [hdc] at h
    · exact Except.noConfusion h
    · cases h
      have hl2 : cur.cards.length = 2 := by omega
      exact Or.inr ⟨rfl, by simp [hl2], hl2⟩

lemma playHit_ok_shape {rnd : List (Nat × Nat)} {cur : Hand} {s : Supply}
    {cur₁ : Hand} {s₁ : Supply}
    (h : playHit rnd cur s = Except.ok (cur₁, s₁)) :
    cur₁.ddown = cur.ddown ∧ cur₁.isplit = cur.isplit ∧ cur₁.bet = cur.bet := by
  unfold playHit at h
  rcases hdc : dealCrd rnd s with _ | ⟨c, s₂⟩ <;> rw [hdc] at h
  · exact Except.noConfusion h
  · cases h
    exact ⟨rfl, rfl, rfl⟩

lemma prependHand_ok {r : Except Unit (Nat × List Hand × Supply × List Choice)}
    {hd : Hand} {out : Nat × List Hand × Supply × List Choice}
    (h : prependHand r hd = Except.ok out) :
    ∃ chips hands s sc, r = Except.ok (chips, hands, s, sc)
      ∧ out = (chips, hd :: hands, s, sc) := by
  rcases r with e | ⟨chips, hands, s, sc⟩
  · exact Except.noConfusion h
  · unfold prependHand at h
    cases h
    exact ⟨chips, hands, s, sc, rfl, rfl⟩

lemma canDbl_iff {chips : Nat} {h : Hand} :
    canDbl chips h = true ↔ (h.cards.length = 2 ∧ h.bet ≤ chips) := by
  unfold canDbl
  simp [Bool.and_eq_true, beq_iff_eq, ge_iff_le, decide_eq_true_eq]

lemma canSplt_iff {h : Hand} :
    canSplt h = true ↔
      ∃ c1 c2, h.cards = [c1, c2] ∧ c1.rank = c2.rank ∧ h.isplit = false := by
  unfold canSplt
  rcases hc : h.cards with _ | ⟨c1, _ | ⟨c2, _ | ⟨c3, t⟩⟩⟩
  · simp
  · simp
  · dsimp only
    simp only [Bool.and_eq_true, beq_iff_eq, Bool.not_eq_true']
    constructor
    · rintro ⟨h1, h2⟩
      exact ⟨c1, c2, rfl, h1, h2⟩
    · rintro ⟨a, b, hab, h1, h2⟩
      simp only [List.cons.injEq, and_true] at hab
      obtain ⟨rfl, rfl⟩ := hab
      exact ⟨h1, h2⟩
  · simp

lemma hdlInner_other {fuel : Nat} {script : List Choice} {chips : Nat} {cur : Hand}
    {rest : List Hand} {s : Supply} {rnd : List (Nat × Nat)}
    (h21 : calcScr cur ≤ 21) (hne : calcScr cur ≠ 21) :
    hdlInner (fuel + 1) (Choice.other :: script) chips cur rest s rnd
      = hdlInner fuel script chips cur rest s rnd := by
  conv_lhs => unfold hdlInner
  rw [if_neg (by omega), if_neg hne]

lemma hdlInner_D_no {fuel : Nat} {script : List Choice} {chips : Nat} {cur : Hand}
    {rest : List Hand} {s : Supply} {rnd : List (Nat × Nat)}
    (h21 : calcScr cur ≤ 21) (hne : calcScr cur ≠ 21) (hdbl : canDbl chips cur = false) :
    hdlInner (fuel + 1) (Choice.D :: script) chips cur rest s rnd
      = hdlInner fuel script chips cur rest s rnd := by
  conv_lhs => unfold hdlInner
  rw [if_neg (by omega), if_neg hne]
  dsimp only
  rw [if_neg (by simp [hdbl])]

lemma hdlInner_P_no {fuel : Nat} {script : List Choice} {chips : Nat} {cur : Hand}
    {rest : List Hand} {s : Supply} {rnd : List (Nat × Nat)}
    (h21 : calcScr cur ≤ 21) (hne : calcScr cur ≠ 21) (hsp : canSplt cur = false) :
    hdlInner (fuel + 1) (Choice.P :: script) chips cur rest s rnd
      = hdlInner fuel script chips cur rest s rnd := by
  conv_lhs => unfold hdlInner
  rw [if_neg (by omega), if_neg hne]
  dsimp only
  rw [if_neg (by simp [hsp])]

lemma hdlInner_P_denied {fuel : Nat} {script : List Choice} {chips : Nat} {cur : Hand}
    {rest : List Hand} {s : Supply} {rnd : List (Nat × Nat)}
    (h21 : calcScr cur ≤ 21) (hne : calcScr cur ≠ 21) (hsp : canSplt cur = true)
    (hpoor : chips < cur.bet) :
    hdlInner (fuel + 1) (Choice.P :: script) chips cur rest s rnd
      = hdlOuter fuel script chips (cur :: rest) s rnd := by
  conv_lhs => unfold hdlInner
  rw [if_neg (by omega), if_neg hne]
  dsimp only
  rw [if_pos hsp, playSplt_poor hpoor]

lemma hdlInner_P_go {fuel : Nat} {script : List Choice} {chips : Nat} {c1 c2 : Card}
    {bet : Nat} {rest : List Hand} {d1 d2 : Card} {ds dis : List Card}
    {rnd : List (Nat × Nat)}
    (hr : c1.rank = c2.rank) (hchips : bet ≤ chips)
    (h21 : calcScr ⟨[c1, c2], bet, false, false⟩ < 21) :
    hdlInner (fuel + 1) (Choice.P :: script) chips ⟨[c1, c2], bet, false, false⟩ rest
        ⟨d1 :: d2 :: ds, dis⟩ rnd
      = hdlOuter fuel script (chips - bet)
          (⟨[c1, d1], bet, false, false⟩ :: ⟨[c2, d2], bet, true, false⟩ :: rest)
          ⟨ds, dis⟩ rnd := by
  conv_lhs => unfold hdlInner
  rw [if_neg (by omega), if_neg (by omega)]
  dsimp only
  rw [if_pos (by
    rw [canSplt_iff]
    exact ⟨c1, c2, rfl, hr, rfl⟩)]
  rw [playSplt_go hr hchips]

lemma hdlInner_D_go {fuel : Nat} {script : List Choice} {chips : Nat} {cur : Hand}
    {rest : List Hand} {s : Supply} {rnd : List (Nat × Nat)} {c : Card} {s₁ : Supply}
    (h21 : calcScr cur ≤ 21) (hne : calcScr cur ≠ 21) (hdbl : canDbl chips cur = true)
    (hdc : dealCrd rnd s = Except.ok (c, s₁)) :
    hdlInner (fuel + 1) (Choice.D :: script) chips cur rest s rnd
      = prependHand (hdlOuter fuel script (chips - cur.bet) rest s₁ rnd)
          { cur with bet := cur.bet * 2, ddown := true, cards := cur.cards ++ [c] } := by
  obtain ⟨hlen, hbet⟩ := canDbl_iff.mp hdbl
  conv_lhs => unfold hdlInner
  rw [if_neg (by omega), if_neg hne]
  dsimp only
  rw [if_pos hdbl, playDD_go hlen hbet hdc]

lemma hdlInner_H {fuel : Nat} {script : List Choice} {chips : Nat} {cur : Hand}
    {rest : List Hand} {s : Supply} {rnd : List (Nat × Nat)} {c : Card} {s₁ : Supply}
    (h21 : calcScr cur ≤ 21) (hne : calcScr cur ≠ 21)
    (hdc : dealCrd rnd s = Except.ok (c, s₁)) :
    hdlInner (fuel + 1) (Choice.H :: script) chips cur rest s rnd
      = hdlInner fuel script chips { cur with cards := cur.cards ++ [c] } rest s₁ rnd := by
  conv_lhs => unfold hdlInner
  rw [if_neg (by omega), if_neg hne]
  dsimp only
  unfold playHit
  rw [hdc]

lemma hdlInner_S {fuel : Nat} {script : List Choice} {chips : Nat} {cur : Hand}
    {rest : List Hand} {s : Supply} {rnd : List (Nat × Nat)}
    (h21 : calcScr cur ≤ 21) (hne : calcScr cur ≠ 21) :
    hdlInner (fuel + 1) (Choice.S :: script) chips cur rest s rnd
      = prependHand (hdlOuter fuel script chips rest s rnd) cur := by
  conv_lhs => unfold hdlInner
  rw [if_neg (by omega), if_neg hne]

lemma hdlOuter_nil {fuel : Nat} {script : List Choice} {chips : Nat} {s : Supply}
    {rnd : List (Nat × Nat)} :
    hdlOuter (fuel + 1) script chips [] s rnd = Except.ok (chips, [], s, script) := by
  conv_lhs => unfold hdlOuter

lemma hdlOuter_cons {fuel : Nat} {script : List Choice} {chips : Nat} {cur : Hand}
    {rest : List Hand} {s : Supply} {rnd : List (Nat × Nat)} :
    hdlOuter (fuel + 1) script chips (cur :: rest) s rnd
      = if cur.ddown then prependHand (hdlOuter fuel script chips rest s rnd) cur
        else if splitAceGuard cur then prependHand (hdlOuter fuel script chips rest s rnd) cur
        else hdlInner fuel script chips cur rest s rnd := by
  conv_lhs => unfold hdlOuter

lemma hdlInner_bust {fuel : Nat} {script : List Choice} {chips : Nat} {cur : Hand}
    {rest : List Hand} {s : Supply} {rnd : List (Nat × Nat)}
    (hbust : calcScr cur > 21) :
    hdlInner (fuel + 1) script chips cur rest s rnd
      = prependHand (hdlOuter fuel script chips rest s rnd) cur := by
  conv_lhs => unfold hdlInner
  rw [if_pos hbust]

lemma hdlInner_21 {fuel : Nat} {script : List Choice} {chips : Nat} {cur : Hand}
    {rest : List Hand} {s : Supply} {rnd : List (Nat × Nat)}
    (h21 : calcScr cur = 21) :
    hdlInner (fuel + 1) script chips cur rest s rnd
      = prependHand (hdlOuter fuel script chips rest s rnd) cur := by
  conv_lhs => unfold hdlInner
  rw [if_neg (by omega), if_pos h21]

lemma hdlInner_script_nil {fuel : Nat} {chips : Nat} {cur : Hand}
    {rest : List Hand} {s : Supply} {rnd : List (Nat × Nat)}
    (h21 : calcScr cur ≤ 21) (hne : calcScr cur ≠ 21) :
    hdlInner (fuel + 1) [] chips cur rest s rnd = Except.error () := by
  conv_lhs => unfold hdlInner
  rw [if_neg (by omega), if_neg hne]

lemma hdlInner_H_eq {fuel : Nat} {script : List Choice} {chips : Nat} {cur : Hand}
    {rest : List Hand} {s : Supply} {rnd : List (Nat × Nat)}
    (h21 : calcScr cur ≤ 21) (hne : calcScr cur ≠ 21) :
    hdlInner (fuel + 1) (Choice.H :: script) chips cur rest s rnd
      = match playHit rnd cur s with
        | Except.error e => Except.error e
        | Except.ok (cur', s') => hdlInner fuel script chips cur' rest s' rnd := by
  conv_lhs => unfold hdlInner
  rw [if_neg (by omega), if_neg hne]

lemma hdlInner_D_eq {fuel : Nat} {script : List Choice} {chips : Nat} {cur : Hand}
    {rest : List Hand} {s : Supply} {rnd : List (Nat × Nat)}
    (h21 : calcScr cur ≤ 21) (hne : calcScr cur ≠ 21) :
    hdlInner (fuel + 1) (Choice.D :: script) chips cur rest s rnd
      = if canDbl chips cur then
          match playDD rnd chips cur s with
          | Except.error e => Except.error e
          | Except.ok (chips', cur', s') =>
            prependHand (hdlOuter fuel script chips' rest s' rnd) cur'
        else hdlInner fuel script chips cur rest s rnd := by
  conv_lhs => unfold hdlInner
  rw [if_neg (by omega), if_neg hne]

lemma hdlInner_P_eq {fuel : Nat} {script : List Choice} {chips : Nat} {cur : Hand}
    {rest : List Hand} {s : Supply} {rnd : List (Nat × Nat)}
    (h21 : calcScr cur ≤ 21) (hne : calcScr cur ≠ 21) :
    hdlInner (fuel + 1) (Choice.P :: script) chips cur rest s rnd
      = if canSplt cur then
          match playSplt rnd chips cur s with
          | Except.error e => Except.error e
          | Except.ok (chips', cur', newOpt, s') =>
            match newOpt with
            | none => hdlOuter fuel script chips' (cur' :: rest) s' rnd
            | some newHnd => hdlOuter fuel script chips' (cur' :: newHnd :: rest) s' rnd
        else hdlInner fuel script chips cur rest s rnd := by
  conv_lhs => unfold hdlInner
  rw [if_neg (by omega), if_neg hne]

lemma hdl_ddown_inv : ∀ fuel : Nat,
    (∀ (script : List Choice) (chips : Nat) (todo : List Hand) (s : Supply)
      (rnd : List (Nat × Nat)) (chips' : Nat) (hands' : List Hand) (s' : Supply)
      (script' : List Choice),
      hdlOuter fuel script chips todo s rnd = Except.ok (chips', hands', s', script') →
      (∀ h ∈ todo, h.ddown = true → h.cards.length = 3) →
      ∀ h ∈ hands', h.ddown = true → h.cards.length = 3) ∧
    (∀ (script : List Choice) (chips : Nat) (cur : Hand) (rest : List Hand) (s : Supply)
      (rnd : List (Nat × Nat)) (chips' : Nat) (hands' : List Hand) (s' : Supply)
      (script' : List Choice),
      hdlInner fuel script chips cur rest s rnd = Except.ok (chips', hands', s', script') →
      cur.ddown = false →
      (∀ h ∈ rest, h.ddown = true → h.cards.length = 3) →
      ∀ h ∈ hands', h.ddown = true → h.cards.length = 3) := by
  intro fuel
  induction fuel with
  | zero =>
    constructor
    · intro script chips todo s rnd chips' hands' s' script' h
      exact absurd h (by exact fun hh => Except.noConfusion hh)
    · intro script chips cur rest s rnd chips' hands' s' script' h
      exact absurd h (by exact fun hh => Except.noConfusion hh)
  | succ fuel ih =>
    obtain ⟨ihO, ihI⟩ := ih
    have houter : ∀ (script : List Choice) (chips : Nat) (todo : List Hand) (s : Supply)
        (rnd : List (Nat × Nat)) (chips' : Nat) (hands' : List Hand) (s' : Supply)
        (script' : List Choice),
        hdlOuter (fuel + 1) script chips todo s rnd = Except.ok (chips', hands', s', script') →
        (∀ h ∈ todo, h.ddown = true → h.cards.length = 3) →
        ∀ h ∈ hands', h.ddown = true → h.cards.length = 3 := by
      intro script chips todo s rnd chips' hands' s' script' h hinv
      cases todo with
      | nil =>
        rw [hdlOuter_nil] at h
        cases h
        intro h hmem
        exact absurd hmem (List.not_mem_nil h)
      | cons cur rest =>
        rw [hdlOuter_cons] at h
        have hrest : ∀ h ∈ rest, h.ddown = true → h.cards.length = 3 := by
          intro h hmem
          exact hinv h (List.mem_cons_of_mem cur hmem)
        split_ifs at h with hdd hguard
        · obtain ⟨chips₁, hands₁, s₁, sc₁, hr, hout⟩ := prependHand_ok h
          cases hout
          intro hx hmem hddh
          rcases List.mem_cons.mp hmem with rfl | hmem₁
          · exact hinv _ (List.mem_cons_self _ _) hddh
          · exact ihO _ _ _ _ _ _ _ _ _ hr hrest hx hmem₁ hddh
        · obtain ⟨chips₁, hands₁, s₁, sc₁, hr, hout⟩ := prependHand_ok h
          cases hout
          intro hx hmem hddh
          rcases List.mem_cons.mp hmem with rfl | hmem₁
          · exact hinv _ (List.mem_cons_self _ _) hddh
          · exact ihO _ _ _ _ _ _ _ _ _ hr hrest hx hmem₁ hddh
        · exact ihI _ _ _ _ _ _ _ _ _ _ h (Bool.not_eq_true _ ▸ hdd) hrest
    constructor
    · exact houter
    · intro script chips cur rest s rnd chips' hands' s' script' h hcur hrest
      by_cases hbust : calcScr cur > 21
      · rw [hdlInner_bust hbust] at h
        obtain ⟨chips₁, hands₁, s₁, sc₁, hr, hout⟩ := prependHand_ok h
        cases hout
        intro hx hmem hddh
        rcases List.mem_cons.mp hmem with rfl | hmem₁
        · rw [hcur] at hddh
          exact absurd hddh (by simp)
        · exact ihO _ _ _ _ _ _ _ _ _ hr hrest hx hmem₁ hddh
      · by_cases h21 : calcScr cur = 21
        · rw [hdlInner_21 h21] at h
          obtain ⟨chips₁, hands₁, s₁, sc₁, hr, hout⟩ := prependHand_ok h
          cases hout
          intro hx hmem hddh
          rcases List.mem_cons.mp hmem with rfl | hmem₁
          · rw [hcur] at hddh
            exact absurd hddh (by simp)
          · exact ihO _ _ _ _ _ _ _ _ _ hr hrest hx hmem₁ hddh
        · cases script with
          | nil =>
            rw [hdlInner_script_nil (by omega) h21] at h
            exact Except.noConfusion h
          | cons choice sc =>
            cases choice with
            | H =>
              rw [hdlInner_H_eq (by omega) h21] at h
              rcases hph : playHit rnd cur s with _ | ⟨cur₁, s₁⟩ <;> rw [hph] at h
              · exact Except.noConfusion h
              · have hsh := playHit_ok_shape hph
                exact ihI _ _ _ _ _ _ _ _ _ _ h (hsh.1.trans hcur) hrest
            | S =>
              rw [hdlInner_S (by omega) h21] at h
              obtain ⟨chips₁, hands₁, s₁, sc₁, hr, hout⟩ := prependHand_ok h
              cases hout
              intro hx hmem hddh
              rcases List.mem_cons.mp hmem with rfl | hmem₁
              · rw [hcur] at hddh
                exact absurd hddh (by simp)
              · exact ihO _ _ _ _ _ _ _ _ _ hr hrest hx hmem₁ hddh
            | D =>
              rw [hdlInner_D_eq (by omega) h21] at h
              split_ifs at h with hdbl
              · rcases hpd : playDD rnd chips cur s with _ | ⟨chips₁, cur₁, s₁⟩ <;>
                  rw [hpd] at h
                · exact Except.noConfusion h
                · obtain ⟨chips₂, hands₂, s₂, sc₂, hr, hout⟩ := prependHand_ok h
                  cases hout
                  intro hx hmem hddh
                  rcases List.mem_cons.mp hmem with rfl | hmem₁
                  · rcases playDD_ok_shape hpd with heq | ⟨_, hlen3, _⟩
                    · rw [heq, hcur] at hddh
                      exact absurd hddh (by simp)
                    · exact hlen3
                  · exact ihO _ _ _ _ _ _ _ _ _ hr hrest hx hmem₁ hddh
              · exact ihI _ _ _ _ _ _ _ _ _ _ h hcur hrest
            | P =>
              rw [hdlInner_P_eq (by omega) h21] at h
              split_ifs at h with hsp
              · rcases hps : playSplt rnd chips cur s with _ | ⟨chips₁, cur₁, newOpt, s₁⟩ <;>
                  rw [hps] at h
                · exact Except.noConfusion h
                · obtain ⟨hdd₁, hnew⟩ := playSplt_ok_shape hps
                  cases newOpt with
                  | none =>
                    refine ihO _ _ _ _ _ _ _ _ _ h ?_
                    intro hx hmem
                    rcases List.mem_cons.mp hmem with rfl | hmem₁
                    · intro hddh
                      rw [hdd₁, hcur] at hddh
                      exact absurd hddh (by simp)
                    · exact hrest hx hmem₁
                  | some newHnd =>
                    refine ihO _ _ _ _ _ _ _ _ _ h ?_
                    intro hx hmem
                    rcases List.mem_cons.mp hmem with rfl | hmem₁
                    · intro hddh
                      rw [hdd₁, hcur] at hddh
                      exact absurd hddh (by simp)
                    · rcases List.mem_cons.mp hmem₁ with rfl | hmem₂
                      · intro hddh
                        rw [hnew _ rfl] at hddh
                        exact absurd hddh (by simp)
                      · exact hrest hx hmem₂
              · exact ihI _ _ _ _ _ _ _ _ _ _ h hcur hrest
            | other =>
              rw [hdlInner_other (by omega) h21] at h
              exact ihI _ _ _ _ _ _ _ _ _ _ h hcur hrest

/-- C3 (refuted on the code): splitting the pair {A♠,A♥} with wager 10,
chips 100, the deck front [5♦,7♣,2♠] and the typed choices P,H,S,S leaves
the first split-result hand with THREE cards: the hand {A♠,5♦} was offered
and took a further draw, because the forced-stand guard (line 459) requires
the current hand to be flagged `isplit` and to hold two Aces, which the
original hand of an Ace split never satisfies. -/
theorem split_aces_offered_further_draw :
    hdlOuter 10 [Choice.P, Choice.H, Choice.S, Choice.S] 100
      [{ cards := [⟨"A", "♠", 11⟩, ⟨"A", "♥", 11⟩], bet := 10 }]
      ⟨[⟨"5", "♦", 5⟩, ⟨"7", "♣", 7⟩, ⟨"2", "♠", 2⟩], []⟩ []
      = Except.ok (90,
          [{ cards := [⟨"A", "♠", 11⟩, ⟨"5", "♦", 5⟩, ⟨"2", "♠", 2⟩], bet := 10 },
           { cards := [⟨"A", "♥", 11⟩, ⟨"7", "♣", 7⟩], bet := 10, isplit := true }],
          ⟨[], []⟩, []) ∧
    splitAceGuard { cards := [⟨"A", "♠", 11⟩, ⟨"5", "♦", 5⟩], bet := 10 } = false := by
  constructor
  · rfl
  · rfl

/-- C4: an eligible split (two same-rank cards, not split-derived, balance
covering the wager) deducts the wager, moves the second card into a new
hand flagged `isplit` with the same wager inserted immediately after the
original, draws one card into each (original first), and play continues on
the original hand; split is offered only under exactly those conditions
(same rank, not merely same value), and a split attempted with a short
balance is denied with no state change. -/
theorem split_eligibility_and_effect :
    (∀ (fuel : Nat) (script : List Choice) (chips : Nat) (c1 c2 d1 d2 : Card) (bet : Nat)
      (rest : List Hand) (ds dis : List Card) (rnd : List (Nat × Nat)),
      c1.rank = c2.rank → bet ≤ chips →
      calcScr ⟨[c1, c2], bet, false, false⟩ < 21 →
      hdlInner (fuel + 1) (Choice.P :: script) chips ⟨[c1, c2], bet, false, false⟩ rest
          ⟨d1 :: d2 :: ds, dis⟩ rnd
        = hdlOuter fuel script (chips - bet)
            (⟨[c1, d1], bet, false, false⟩ :: ⟨[c2, d2], bet, true, false⟩ :: rest)
            ⟨ds, dis⟩ rnd) ∧
    (∀ h : Hand, canSplt h = true ↔
      ∃ c1 c2, h.cards = [c1, c2] ∧ c1.rank = c2.rank ∧ h.isplit = false) ∧
    (∀ (fuel : Nat) (script : List Choice) (chips : Nat) (cur : Hand) (rest : List Hand)
      (s : Supply) (rnd : List (Nat × Nat)),
      calcScr cur ≤ 21 → calcScr cur ≠ 21 → canSplt cur = false →
      hdlInner (fuel + 1) (Choice.P :: script) chips cur rest s rnd
        = hdlInner fuel script chips cur rest s rnd) ∧
    (∀ (fuel : Nat) (script : List Choice) (chips : Nat) (cur : Hand) (rest : List Hand)
      (s : Supply) (rnd : List (Nat × Nat)),
      calcScr cur ≤ 21 → calcScr cur ≠ 21 → canSplt cur = true → chips < cur.bet →
      hdlInner (fuel + 1) (Choice.P :: script) chips cur rest s rnd
        = hdlOuter fuel script chips (cur :: rest) s rnd) := by
  refine ⟨?_, fun h => canSplt_iff, ?_, ?_⟩
  · intro fuel script chips c1 c2 d1 d2 bet rest ds dis rnd hr hchips h21
    exact hdlInner_P_go hr hchips h21
  · intro fuel script chips cur rest s rnd h21 hne hsp
    exact hdlInner_P_no h21 hne hsp
  · intro fuel script chips cur rest s rnd h21 hne hsp hpoor
    exact hdlInner_P_denied h21 hne hsp hpoor

/-- Witness for C4: splitting {10♠,10♥} with wager 10 and chips 100 over
the deck front [4♦,5♣] yields the two hands {10♠,4♦} and {10♥,5♣} (the
latter flagged as split-derived), chips 90, and play resumed on the
original hand. -/
theorem split_eligibility_and_effect_witness :
    hdlInner 2 [Choice.P] 100 ⟨[⟨"10", "♠", 10⟩, ⟨"10", "♥", 10⟩], 10, false, false⟩ []
        ⟨[⟨"4", "♦", 4⟩, ⟨"5", "♣", 5⟩], []⟩ []
      = hdlOuter 1 [] 90
          (⟨[⟨"10", "♠", 10⟩, ⟨"4", "♦", 4⟩], 10, false, false⟩ ::
           ⟨[⟨"10", "♥", 10⟩, ⟨"5", "♣", 5⟩], 10, true, false⟩ :: [])
          ⟨[], []⟩ [] :=
  split_eligibility_and_effect.1 1 [] 100 ⟨"10", "♠", 10⟩ ⟨"10", "♥", 10⟩
    ⟨"4", "♦", 4⟩ ⟨"5", "♣", 5⟩ 10 [] [] [] [] rfl (by omega) (by decide)

/-- C6: double-down is offered exactly for two-card hands whose wager the
balance covers; taking it deducts the original wager once more, doubles the
hand's wager, sets the double-down flag, draws exactly one card, and
finishes the hand unconditionally (even on a bust); consequently, when the
decision phase completes, every hand flagged `ddown` holds exactly 3 cards
provided every doubled hand entering the phase already did. -/
theorem double_down_spec :
    (∀ (chips : Nat) (h : Hand),
      canDbl chips h = true ↔ (h.cards.length = 2 ∧ h.bet ≤ chips)) ∧
    (∀ (fuel : Nat) (script : List Choice) (chips : Nat) (cur : Hand) (rest : List Hand)
      (s : Supply) (rnd : List (Nat × Nat)) (c : Card) (s₁ : Supply),
      calcScr cur ≤ 21 → calcScr cur ≠ 21 → canDbl chips cur = true →
      dealCrd rnd s = Except.ok (c, s₁) →
      hdlInner (fuel + 1) (Choice.D :: script) chips cur rest s rnd
        = prependHand (hdlOuter fuel script (chips - cur.bet) rest s₁ rnd)
            { cur with bet := cur.bet * 2, ddown := true, cards := cur.cards ++ [c] }) ∧
    (∀ (fuel : Nat) (script : List Choice) (chips : Nat) (todo : List Hand) (s : Supply)
      (rnd : List (Nat × Nat)) (chips' : Nat) (hands' : List Hand) (s' : Supply)
      (script' : List Choice),
      hdlOuter fuel script chips todo s rnd = Except.ok (chips', hands', s', script') →
      (∀ h ∈ todo, h.ddown = true → h.cards.length = 3) →
      ∀ h ∈ hands', h.ddown = true → h.cards.length = 3) := by
  refine ⟨fun chips h => canDbl_iff, ?_, ?_⟩
  · intro fuel script chips cur rest s rnd c s₁ h21 hne hdbl hdc
    exact hdlInner_D_go h21 hne hdbl hdc
  · intro fuel
    exact (hdl_ddown_inv fuel).1

/-- Witness for C6: doubling down on {5♠,6♥} with wager 10 and chips 50
deducts 10, doubles the wager to 20, sets the flag, draws the single card
9♦ for a 3-card hand, and finishes the hand. -/
theorem double_down_spec_witness :
    hdlInner 2 [Choice.D] 50 { cards := [⟨"5", "♠", 5⟩, ⟨"6", "♥", 6⟩], bet := 10 } []
        ⟨[⟨"9", "♦", 9⟩], []⟩ []
      = prependHand (hdlOuter 1 [] 40 [] ⟨[], []⟩ [])
          { cards := [⟨"5", "♠", 5⟩, ⟨"6", "♥", 6⟩, ⟨"9", "♦", 9⟩], bet := 20, ddown := true } :=
  double_down_spec.2.1 1 [] 50 { cards := [⟨"5", "♠", 5⟩, ⟨"6", "♥", 6⟩], bet := 10 } []
    ⟨[⟨"9", "♦", 9⟩], []⟩ [] ⟨"9", "♦", 9⟩ ⟨[], []⟩ (by decide) (by decide) (by decide) rfl

/-- C10: a split refused for shape (not two cards, or differing ranks) or
for a short balance, and a double-down refused for shape or balance, return
every input unchanged — no chips move, no hand or card moves, no wager or
flag changes; inside the decision loop an unavailable or unrecognized
action re-prompts on the same hand with identical state. -/
theorem denied_action_no_change :
    (∀ (rnd : List (Nat × Nat)) (chips : Nat) (h : Hand) (s : Supply), h.cards.length ≠ 2 →
      playSplt rnd chips h s = Except.ok (chips, h, none, s)) ∧
    (∀ (rnd : List (Nat × Nat)) (chips : Nat) (c1 c2 : Card) (bet : Nat) (isp dd : Bool)
      (s : Supply), c1.rank ≠ c2.rank →
      playSplt rnd chips ⟨[c1, c2], bet, isp, dd⟩ s
        = Except.ok (chips, ⟨[c1, c2], bet, isp, dd⟩, none, s)) ∧
    (∀ (rnd : List (Nat × Nat)) (chips : Nat) (h : Hand) (s : Supply), chips < h.bet →
      playSplt rnd chips h s = Except.ok (chips, h, none, s)) ∧
    (∀ (rnd : List (Nat × Nat)) (chips : Nat) (h : Hand) (s : Supply), h.cards.length ≠ 2 →
      playDD rnd chips h s = Except.ok (chips, h, s)) ∧
    (∀ (rnd : List (Nat × Nat)) (chips : Nat) (h : Hand) (s : Supply), chips < h.bet →
      playDD rnd chips h s = Except.ok (chips, h, s)) ∧
    (∀ (fuel : Nat) (script : List Choice) (chips : Nat) (cur : Hand) (rest : List Hand)
      (s : Supply) (rnd : List (Nat × Nat)), calcScr cur ≤ 21 → calcScr cur ≠ 21 →
      hdlInner (fuel + 1) (Choice.other :: script) chips cur rest s rnd
        = hdlInner fuel script chips cur rest s rnd) ∧
    (∀ (fuel : Nat) (script : List Choice) (chips : Nat) (cur : Hand) (rest : List Hand)
      (s : Supply) (rnd : List (Nat × Nat)), calcScr cur ≤ 21 → calcScr cur ≠ 21 →
      canDbl chips cur = false →
      hdlInner (fuel + 1) (Choice.D :: script) chips cur rest s rnd
        = hdlInner fuel script chips cur rest s rnd) ∧
    (∀ (fuel : Nat) (script : List Choice) (chips : Nat) (cur : Hand) (rest : List Hand)
      (s : Supply) (rnd : List (Nat × Nat)), calcScr cur ≤ 21 → calcScr cur ≠ 21 →
      canSplt cur = true → chips < cur.bet →
      hdlInner (fuel + 1) (Choice.P :: script) chips cur rest s rnd
        = hdlOuter fuel script chips (cur :: rest) s rnd) := by
  refine ⟨?_, ?_, ?_, ?_, ?_, ?_, ?_, ?_⟩
  · intro rnd chips h s hlen
    exact playSplt_not_two hlen
  · intro rnd chips c1 c2 bet isp dd s hr
    exact playSplt_rank_ne hr
  · intro rnd chips h s hpoor
    exact playSplt_poor hpoor
  · intro rnd chips h s hlen
    exact playDD_not_two hlen
  · intro rnd chips h s hpoor
    exact playDD_poor hpoor
  · intro fuel script chips cur rest s rnd h21 hne
    exact hdlInner_other h21 hne
  · intro fuel script chips cur rest s rnd h21 hne hdbl
    exact hdlInner_D_no h21 hne hdbl
  · intro fuel script chips cur rest s rnd h21 hne hsp hpoor
    exact hdlInner_P_denied h21 hne hsp hpoor

/-- Witness for C10: a double-down request with chips 5 against a wager of
10 is denied and changes nothing. -/
theorem denied_action_no_change_witness :
    playDD [] 5 { cards := [⟨"5", "♠", 5⟩, ⟨"6", "♥", 6⟩], bet := 10 } ⟨[], []⟩
      = Except.ok (5, { cards := [⟨"5", "♠", 5⟩, ⟨"6", "♥", 6⟩], bet := 10 }, ⟨[], []⟩) :=
  denied_action_no_change.2.2.2.2.1 [] 5
    { cards := [⟨"5", "♠", 5⟩, ⟨"6", "♥", 6⟩], bet := 10 } ⟨[], []⟩ (by decide)

end Blackjack
